import Mathlib

/-!
Shallow embedding of the preprocessing pipeline in
`src/preprocessing/automate_Zidan-Mubarak.py` (class
`ClimateAgriculturePreprocessor` and `main`).

A pandas DataFrame is modelled column-oriented: a numeric column is a list
of optional rationals (`none` is a missing value, `NaN` in the source), a
categorical column is a list of optional strings.  Floating point numbers
are idealised as exact rationals (reals for the scaler, which divides by a
square root).  Each pipeline stage of the source becomes a function on
`Dataset`, keeping the source's method names.
-/

namespace ClimateAgri

/-- A numeric column: entries are `none` when the cell is missing (NaN). -/
abbrev NumCol := List (Option ℚ)

/-- A categorical column: entries are `none` when the cell is missing. -/
abbrev CatCol := List (Option String)

/-- A dataframe, split into its numeric and its categorical columns, each
column a name paired with its values. -/
structure Dataset where
  numCols : List (String × NumCol)
  catCols : List (String × CatCol)
deriving DecidableEq

/-- Ascending sort of rational values, as `numpy` sorts a column before
taking order statistics. -/
def sortVals (xs : List ℚ) : List ℚ := List.insertionSort (· ≤ ·) xs

/-- Ascending sort of strings (lexicographic), as `pandas.Series.mode`
returns its result sorted. -/
def sortStrs (xs : List String) : List String := List.insertionSort (· ≤ ·) xs

/-- pandas `Series.median`, skipping missing values: the middle element of
the sorted present values, or the average of the two middle elements; `none`
(NaN) when no value is present. -/
def median (xs : NumCol) : Option ℚ :=
  let vs := sortVals (xs.filterMap id)
  let n := vs.length
  if n = 0 then none
  else if n % 2 = 1 then some (vs.getD (n / 2) 0)
  else some ((vs.getD (n / 2 - 1) 0 + vs.getD (n / 2) 0) / 2)

/-- Number of occurrences of `v` among the present values `vs`. -/
def countVal (vs : List String) (v : String) : ℕ :=
  (vs.filter (fun u => u = v)).length

/-- pandas `Series.mode()[0]`: the lexicographically smallest among the most
frequent present values; `none` when no value is present (there the source
raises `IndexError` on the empty mode series). -/
def mode (xs : CatCol) : Option String :=
  let vs := xs.filterMap id
  let dv := sortStrs vs.dedup
  let maxCount := (dv.map (countVal vs)).foldr max 0
  (dv.filter (fun v => countVal vs v = maxCount)).head?

/-- Source `handle_missing_values`, numeric case: if the column has a
missing entry, fill every missing entry with the column median
(`fillna(median)`); filling with NaN (all-missing column) leaves the column
as it is. -/
def fillNumericColumn (xs : NumCol) : NumCol :=
  if xs.any (fun v => v.isNone) then
    match median xs with
    | none => xs
    | some m => xs.map (fun v => some (v.getD m))
  else xs

/-- Source `handle_missing_values`, categorical case: fill missing entries
with the column mode. -/
def fillCategoricalColumn (xs : CatCol) : CatCol :=
  if xs.any (fun v => v.isNone) then
    match mode xs with
    | none => xs
    | some m => xs.map (fun v => some (v.getD m))
  else xs

/-- Source method `handle_missing_values` (STEP 3): numeric columns are
filled with their median, categorical columns with their mode.  (The
source's early exit when no value is missing at all, and its per-column
`isnull` guard, are the identity in exactly those cases.) -/
def handle_missing_values (d : Dataset) : Dataset where
  numCols := d.numCols.map (fun c => (c.1, fillNumericColumn c.2))
  catCols := d.catCols.map (fun c => (c.1, fillCategoricalColumn c.2))

/-- Linear-interpolation positional lookup used by pandas
`Series.quantile`: position `h` into the ascending list `s`, interpolating
between the neighbouring elements. -/
def interp (s : List ℚ) (h : ℚ) : ℚ :=
  let i : ℕ := (⌊h⌋).toNat
  let lo := s.getD i 0
  let hi := s.getD (i + 1) lo
  lo + (h - (i : ℚ)) * (hi - lo)

/-- pandas `Series.quantile(q)` with the default linear interpolation over
the present values `vs`. -/
def quantile (vs : List ℚ) (q : ℚ) : ℚ :=
  interp (sortVals vs) (q * ((vs.length : ℚ) - 1))

/-- Lower IQR fence `Q1 - 1.5 * IQR` of `handle_outliers`, computed on the
present values of a column. -/
def lowerBound (vs : List ℚ) : ℚ :=
  quantile vs (1/4) - 3/2 * (quantile vs (3/4) - quantile vs (1/4))

/-- Upper IQR fence `Q3 + 1.5 * IQR` of `handle_outliers`. -/
def upperBound (vs : List ℚ) : ℚ :=
  quantile vs (3/4) + 3/2 * (quantile vs (3/4) - quantile vs (1/4))

/-- numpy/pandas `clip(lower, upper)` on one value. -/
def clip (lower upper x : ℚ) : ℚ := min (max x lower) upper

/-- One column of source `handle_outliers`: count the present values outside
the IQR fences; if any, clip the column to the fences (missing entries stay
missing), otherwise leave the column untouched. -/
def capColumn (xs : NumCol) : NumCol :=
  let vs := xs.filterMap id
  let lower := lowerBound vs
  let upper := upperBound vs
  let outliers := vs.countP (fun x => decide (x < lower) || decide (upper < x))
  if 0 < outliers then xs.map (Option.map (clip lower upper)) else xs

/-- Source method `handle_outliers` (STEP 4): every numeric column of the
dataframe (`select_dtypes(include=[np.number])` — the target included) is
capped to its IQR fences; categorical columns are not touched. -/
def handle_outliers (d : Dataset) : Dataset where
  numCols := d.numCols.map (fun c => (c.1, capColumn c.2))
  catCols := d.catCols

/-- Values of the numeric column named `n` (empty when there is no such
column; the source would raise a `KeyError` on a genuine lookup). -/
def getNum (d : Dataset) (n : String) : NumCol :=
  ((d.numCols.find? (fun c => c.1 = n)).map Prod.snd).getD []

/-- Values of the categorical column named `n`. -/
def getCat (d : Dataset) (n : String) : CatCol :=
  ((d.catCols.find? (fun c => c.1 = n)).map Prod.snd).getD []

/-- Whether a categorical column named `n` exists (`col in self.df.columns`
for the configured, all-categorical, column names). -/
def hasCat (d : Dataset) (n : String) : Bool :=
  (d.catCols.find? (fun c => c.1 = n)).isSome

/-- Largest column length of the dataframe — its row count (all columns of a
pandas DataFrame share one length). -/
def numRows (d : Dataset) : ℕ :=
  (d.numCols.map (fun c => c.2.length) ++ d.catCols.map (fun c => c.2.length)).foldr max 0

/-- Row `i` of the dataset, as the tuple of its cells, in column order. -/
def rowAt (d : Dataset) (i : ℕ) : List (Option ℚ) × List (Option String) :=
  (d.numCols.map (fun c => c.2.getD i none), d.catCols.map (fun c => c.2.getD i none))

/-- The rows of the dataset, in order. -/
def rowList (d : Dataset) : List (List (Option ℚ) × List (Option String)) :=
  (List.range (numRows d)).map (rowAt d)

/-- Number of distinct rows — the row count `drop_duplicates` would leave. -/
def distinctRowCount (d : Dataset) : ℕ := (rowList d).dedup.length

/-- Whether any cell of the dataset is missing (`df.isnull().sum().sum() > 0`). -/
def hasMissing (d : Dataset) : Bool :=
  d.numCols.any (fun c => c.2.any (fun v => v.isNone)) ||
    d.catCols.any (fun c => c.2.any (fun v => v.isNone))

/-- Zip of three equally long columns, row by row. -/
def zipWith3 (f : α → β → γ → δ) : List α → List β → List γ → List δ
  | a :: as, b :: bs, c :: cs => f a b c :: zipWith3 f as bs cs
  | _, _, _ => []

/-- Lift a three-argument rational formula to missing-value cells: pandas
arithmetic propagates NaN. -/
def liftOpt3 (f : ℚ → ℚ → ℚ → ℚ) : Option ℚ → Option ℚ → Option ℚ → Option ℚ
  | some a, some b, some c => some (f a b c)
  | _, _, _ => none

/-- pandas `series > c` on one cell: a missing value compares `False`. -/
def cellGT (v : Option ℚ) (c : ℚ) : Bool :=
  match v with
  | some x => decide (c < x)
  | none => false

/-- pandas `series < c` on one cell: a missing value compares `False`. -/
def cellLT (v : Option ℚ) (c : ℚ) : Bool :=
  match v with
  | some x => decide (x < c)
  | none => false

/-- `astype(int)` of a boolean condition. -/
def boolInt (b : Bool) : ℚ := if b then 1 else 0

/-- `pd.cut` of `Average_Temperature_C` at `[-inf, 10, 20, 30, inf]` with
labels `Cold/Moderate/Warm/Hot` (right-closed intervals). -/
def temperature_Category (x : ℚ) : String :=
  if x ≤ 10 then "Cold" else if x ≤ 20 then "Moderate"
  else if x ≤ 30 then "Warm" else "Hot"

/-- `pd.cut` of `Total_Precipitation_mm` at `[-inf, 500, 1500, 2500, inf]`. -/
def precipitation_Category (x : ℚ) : String :=
  if x ≤ 500 then "Low" else if x ≤ 1500 then "Medium"
  else if x ≤ 2500 then "High" else "Very_High"

/-- `pd.cut` of `Crop_Yield_MT_per_HA` at `[-inf, 1.5, 2.5, 3.5, inf]`. -/
def yield_Category (x : ℚ) : String :=
  if x ≤ 3/2 then "Low" else if x ≤ 5/2 then "Medium"
  else if x ≤ 7/2 then "High" else "Very_High"

/-- `Climate_Stress` for one row: the number of the three threshold
conditions that hold (missing cells fail their condition, as in pandas). -/
def climate_Stress (t p e : Option ℚ) : Option ℚ :=
  some (boolInt (cellGT t 30) + boolInt (cellLT p 500) + boolInt (cellGT e 5))

/-- Denominator of `Resource_Efficiency`: fertilizer + pesticide + 1. -/
def resourceDenominator (fert pest : ℚ) : ℚ := fert + pest + 1

/-- `Resource_Efficiency` for one row:
`Crop_Yield_MT_per_HA / (Fertilizer_Use_KG_per_HA + Pesticide_Use_KG_per_HA + 1)`. -/
def resource_Efficiency (cropYield fert pest : ℚ) : ℚ :=
  cropYield / resourceDenominator fert pest

/-- `Environmental_Impact` for one row:
`CO2_Emissions_MT * 0.4 + Pesticide_Use_KG_per_HA * 0.3 + Fertilizer_Use_KG_per_HA * 0.3`. -/
def environmental_Impact (co2 pest fert : ℚ) : ℚ :=
  co2 * (2/5) + pest * (3/10) + fert * (3/10)

/-- Source method `feature_engineering` (STEP 5): appends the three binned
categorical columns and the three derived numeric columns, each computed
row-wise from the named existing columns. -/
def feature_engineering (d : Dataset) : Dataset where
  numCols := d.numCols ++
    [("Climate_Stress",
        zipWith3 climate_Stress (getNum d "Average_Temperature_C")
          (getNum d "Total_Precipitation_mm") (getNum d "Extreme_Weather_Events")),
     ("Resource_Efficiency",
        zipWith3 (liftOpt3 resource_Efficiency) (getNum d "Crop_Yield_MT_per_HA")
          (getNum d "Fertilizer_Use_KG_per_HA") (getNum d "Pesticide_Use_KG_per_HA")),
     ("Environmental_Impact",
        zipWith3 (liftOpt3 environmental_Impact) (getNum d "CO2_Emissions_MT")
          (getNum d "Pesticide_Use_KG_per_HA") (getNum d "Fertilizer_Use_KG_per_HA"))]
  catCols := d.catCols ++
    [("Temperature_Category",
        (getNum d "Average_Temperature_C").map (Option.map temperature_Category)),
     ("Precipitation_Category",
        (getNum d "Total_Precipitation_mm").map (Option.map precipitation_Category)),
     ("Yield_Category",
        (getNum d "Crop_Yield_MT_per_HA").map (Option.map yield_Category))]

/-- The column list `categorical_cols` of source `encode_categorical`. -/
def categorical_cols : List String :=
  ["Country", "Region", "Crop_Type", "Adaptation_Strategies",
   "Temperature_Category", "Precipitation_Category", "Yield_Category"]

/-- `astype(str)` on one cell: a missing value becomes the string "nan". -/
def strForm : Option String → String
  | some s => s
  | none => "nan"

/-- The string forms of a categorical column, as fed to the label encoder. -/
def colStr (d : Dataset) (c : String) : List String := (getCat d c).map strForm

/-- sklearn `LabelEncoder.fit_transform` code of one value: its rank among
the sorted distinct observed values, i.e. the number of distinct observed
values lexicographically below it. -/
def encodeValue (xs : List String) (x : String) : ℕ :=
  (xs.dedup.filter (fun u => decide (u < x))).length

/-- sklearn `LabelEncoder.fit_transform` of a whole column (codes are
integers, stored as a numeric column). -/
def encodeColumn (xs : List String) : NumCol :=
  xs.map (fun x => some ((encodeValue xs x : ℚ)))

/-- Name of the appended encoded column for column `c`. -/
def encodedName (c : String) : String := c ++ "_Encoded"

/-- Source method `encode_categorical` (STEP 6): for each configured
categorical column present in the dataframe, append a numeric column
`{col}_Encoded` with the label-encoded string forms of the column. -/
def encode_categorical (d : Dataset) : Dataset where
  numCols := d.numCols ++
    (categorical_cols.filter (fun c => hasCat d c)).map
      (fun c => (encodedName c, encodeColumn (colStr d c)))
  catCols := d.catCols

/-- The list `numerical_features` of source `select_features`. -/
def numerical_features : List String :=
  ["Year", "Average_Temperature_C", "Total_Precipitation_mm", "CO2_Emissions_MT",
   "Extreme_Weather_Events", "Irrigation_Access_%", "Pesticide_Use_KG_per_HA",
   "Fertilizer_Use_KG_per_HA", "Soil_Health_Index", "Climate_Stress",
   "Resource_Efficiency", "Environmental_Impact"]

/-- The list `encoded_features` of source `select_features`. -/
def encoded_features : List String :=
  ["Country_Encoded", "Region_Encoded", "Crop_Type_Encoded",
   "Adaptation_Strategies_Encoded", "Temperature_Category_Encoded",
   "Precipitation_Category_Encoded"]

/-- The target column name of `select_features`. -/
def target : String := "Crop_Yield_MT_per_HA"

/-- `selected_features = numerical_features + encoded_features + [target]`. -/
def selected_features : List String := numerical_features ++ encoded_features ++ [target]

/-- Source method `select_features` (STEP 7): `df_processed` holds exactly
the selected (all numeric) columns, in order. -/
def select_features (d : Dataset) : Dataset where
  numCols := selected_features.map (fun n => (n, getNum d n))
  catCols := []

/-- A numeric column of `df_processed` as real numbers: the scaler divides
by a square root, so it is modelled over exact reals. -/
abbrev RCol := List ℝ

/-- `df_processed` after selection: only numeric columns remain. -/
abbrev RDataset := List (String × RCol)

/-- Arithmetic mean of a column, as `StandardScaler` fits it. -/
noncomputable def meanR (xs : RCol) : ℝ := xs.sum / xs.length

/-- Population variance of a column (`StandardScaler` uses `ddof = 0`). -/
noncomputable def varR (xs : RCol) : ℝ := meanR (xs.map (fun x => (x - meanR xs)^2))

/-- The per-column scale of `StandardScaler`: the standard deviation, a zero
scale replaced by 1 (sklearn `_handle_zeros_in_scale`). -/
noncomputable def stdScale (xs : RCol) : ℝ :=
  if Real.sqrt (varR xs) = 0 then 1 else Real.sqrt (varR xs)

/-- `StandardScaler.fit_transform` on one column: `x ↦ (x - mean) / std`. -/
noncomputable def scaleColumn (xs : RCol) : RCol :=
  xs.map (fun x => (x - meanR xs) / stdScale xs)

/-- Source method `scale_features` (STEP 8): every column of `df_processed`
except the target `Crop_Yield_MT_per_HA` is standardized; the target column
is left as it is (`features_to_scale = columns.drop(target)`). -/
noncomputable def scale_features (cols : RDataset) : RDataset :=
  cols.map (fun c => if c.1 = target then c else (c.1, scaleColumn c.2))

/-- Values of the column named `n` of `df_processed`. -/
def colR (cols : RDataset) (n : String) : RCol :=
  ((cols.find? (fun c => c.1 = n)).map Prod.snd).getD []

/-- Cast one cell to an exact real.  A still-missing value is sent to 0;
in the source a residual NaN would make `StandardScaler` raise, and no
claim depends on that case. -/
noncomputable def toRval (v : Option ℚ) : ℝ := ((v.getD 0 : ℚ) : ℝ)

/-- Cast the (all numeric) selected columns to real-valued columns. -/
noncomputable def toRCols (d : Dataset) : RDataset :=
  d.numCols.map (fun c => (c.1, c.2.map toRval))

/-- The composed pipeline of source `main` (STEPS 3–8): missing values,
outliers, feature engineering, encoding, selection, scaling.  `main` then
writes this single table to one CSV; no further stage exists. -/
noncomputable def run_pipeline (d : Dataset) : RDataset :=
  scale_features (toRCols (select_features (encode_categorical
    (feature_engineering (handle_outliers (handle_missing_values d))))))

/-! Concrete datasets and columns used to instantiate the theorems. -/

/-- A three-row single-column dataset whose first two rows coincide. -/
def exDup : Dataset where
  numCols := [("A", [some 1, some 1, some 2])]
  catCols := []

/-- A numeric column with one clear upper outlier: `Q1 = 2`, `Q3 = 4`,
fences `[-1, 7]`, so `100` is capped to `7`. -/
def exOutlierCol : NumCol := [some 1, some 2, some 3, some 4, some 100]

/-- A dataset whose target column `Crop_Yield_MT_per_HA` has an outlier. -/
def exTargetOutlier : Dataset where
  numCols := [("Crop_Yield_MT_per_HA", exOutlierCol)]
  catCols := []

/-- A column with zero interquartile range but non-zero spread:
`Q1 = Q3 = 5`, fences `[5, 5]`, yet it holds `0` and `10`. -/
def exZeroIQRCol : NumCol := [some 0, some 5, some 5, some 5, some 10]

/-- A dataset with an all-missing numeric column. -/
def exAllMissing : Dataset where
  numCols := [("A", [none])]
  catCols := []

/-- A dataset where every column with a missing entry also has a present
entry. -/
def exFillable : Dataset where
  numCols := [("A", [some 1, none, some 4])]
  catCols := [("B", [some "x", none])]

/-- A dataset with one categorical column to be label encoded. -/
def exEncode : Dataset where
  numCols := []
  catCols := [("Country", [some "B", some "A", some "B"])]

/-- A two-column `df_processed` for the scaler: one feature column of
variance 1 and the target column. -/
noncomputable def exScale : RDataset :=
  [("Year", [1, 3]), ("Crop_Yield_MT_per_HA", [5, 6])]

/-! Helper lemmas: order statistics of a sorted list. -/

lemma sortVals_sorted (vs : List ℚ) : (sortVals vs).Sorted (· ≤ ·) :=
  List.sorted_insertionSort _ vs

lemma sortVals_perm (vs : List ℚ) : (sortVals vs).Perm vs :=
  List.perm_insertionSort _ vs

lemma sortVals_length (vs : List ℚ) : (sortVals vs).length = vs.length :=
  (sortVals_perm vs).length_eq

lemma sortVals_mem {vs : List ℚ} {a : ℚ} : a ∈ sortVals vs ↔ a ∈ vs :=
  (sortVals_perm vs).mem_iff

lemma sorted_get_le {s : List ℚ} (hs : s.Sorted (· ≤ ·)) (i j : Fin s.length)
    (hij : (i : ℕ) ≤ (j : ℕ)) : s.get i ≤ s.get j := by
  rcases eq_or_lt_of_le hij with heq | hlt
  · rw [Fin.ext heq]
  · exact hs.rel_get_of_lt hlt

lemma sorted_getD_le {s : List ℚ} (hs : s.Sorted (· ≤ ·)) {i j : ℕ}
    (hij : i ≤ j) (hj : j < s.length) (d e : ℚ) : s.getD i d ≤ s.getD j e := by
  have hi : i < s.length := lt_of_le_of_lt hij hj
  rw [List.getD_eq_getElem s d hi, List.getD_eq_getElem s e hj]
  have := sorted_get_le hs ⟨i, hi⟩ ⟨j, hj⟩ hij
  simpa using this

lemma getD_succ_ge {s : List ℚ} (hs : s.Sorted (· ≤ ·)) {i : ℕ} :
    s.getD i 0 ≤ s.getD (i + 1) (s.getD i 0) := by
  rcases lt_or_ge (i + 1) s.length with hlt | hge
  · exact sorted_getD_le hs (Nat.le_succ i) hlt 0 _
  · rw [List.getD_eq_default _ _ hge]

lemma floor_idx_lt {n : ℕ} (hn : 1 ≤ n) {h : ℚ} (h1 : h ≤ (n : ℚ) - 1) :
    (⌊h⌋).toNat < n := by
  have h2 : ⌊h⌋ ≤ (n : ℤ) - 1 := by
    have hcast : ((n : ℚ) - 1) = (((n : ℤ) - 1 : ℤ) : ℚ) := by push_cast; ring
    have hm := Int.floor_mono h1
    rwa [hcast, Int.floor_intCast] at hm
  omega

lemma floor_toNat_cast {h : ℚ} (h0 : 0 ≤ h) :
    (((⌊h⌋).toNat : ℕ) : ℚ) = ((⌊h⌋ : ℤ) : ℚ) := by
  exact_mod_cast congrArg (fun z : ℤ => (z : ℚ)) (Int.toNat_of_nonneg (Int.floor_nonneg.mpr h0))

lemma interp_eq (s : List ℚ) (h : ℚ) :
    interp s h =
      s.getD ((⌊h⌋).toNat) 0 +
        (h - (((⌊h⌋).toNat : ℕ) : ℚ)) *
          (s.getD ((⌊h⌋).toNat + 1) (s.getD ((⌊h⌋).toNat) 0) - s.getD ((⌊h⌋).toNat) 0) := rfl

lemma interp_bounds {s : List ℚ} (hs : s.Sorted (· ≤ ·)) (hn : 1 ≤ s.length)
    {h : ℚ} (h0 : 0 ≤ h) (h1 : h ≤ (s.length : ℚ) - 1) :
    s.getD ((⌊h⌋).toNat) 0 ≤ interp s h ∧
      interp s h ≤ s.getD ((⌊h⌋).toNat + 1) (s.getD ((⌊h⌋).toNat) 0) := by
  have hin : (⌊h⌋).toNat < s.length := floor_idx_lt hn h1
  have hic : (((⌊h⌋).toNat : ℕ) : ℚ) = ((⌊h⌋ : ℤ) : ℚ) := floor_toNat_cast h0
  have hg0 : 0 ≤ h - (((⌊h⌋).toNat : ℕ) : ℚ) := by
    rw [hic]; linarith [Int.floor_le h]
  have hg1 : h - (((⌊h⌋).toNat : ℕ) : ℚ) ≤ 1 := by
    rw [hic]; have := Int.lt_floor_add_one h; push_cast at this; linarith
  have hsle : s.getD ((⌊h⌋).toNat) 0 ≤ s.getD ((⌊h⌋).toNat + 1) (s.getD ((⌊h⌋).toNat) 0) :=
    getD_succ_ge hs
  rw [interp_eq]
  constructor
  · nlinarith
  · nlinarith

lemma interp_mono {s : List ℚ} (hs : s.Sorted (· ≤ ·)) (hn : 1 ≤ s.length)
    {g₁ g₂ : ℚ} (h0 : 0 ≤ g₁) (h12 : g₁ ≤ g₂) (h2 : g₂ ≤ (s.length : ℚ) - 1) :
    interp s g₁ ≤ interp s g₂ := by
  have hb₁ := interp_bounds hs hn h0 (le_trans h12 h2)
  have hb₂ := interp_bounds hs hn (le_trans h0 h12) h2
  have hi12 : (⌊g₁⌋).toNat ≤ (⌊g₂⌋).toNat := Int.toNat_le_toNat (Int.floor_mono h12)
  rcases eq_or_lt_of_le hi12 with heq | hlt
  · -- both positions fall in the same segment of the piecewise-linear map
    have hsle : s.getD ((⌊g₁⌋).toNat) 0 ≤
        s.getD ((⌊g₁⌋).toNat + 1) (s.getD ((⌊g₁⌋).toNat) 0) := getD_succ_ge hs
    rw [interp_eq, interp_eq, ← heq]
    nlinarith
  · -- the first position's segment ends at or before the second's start
    have hi₂n : (⌊g₂⌋).toNat < s.length := floor_idx_lt hn h2
    calc interp s g₁
        ≤ s.getD ((⌊g₁⌋).toNat + 1) (s.getD ((⌊g₁⌋).toNat) 0) := hb₁.2
      _ ≤ s.getD ((⌊g₂⌋).toNat) 0 := sorted_getD_le hs hlt hi₂n _ 0
      _ ≤ interp s g₂ := hb₂.1

lemma quantile_le_quantile {vs : List ℚ} (hvs : vs ≠ []) :
    quantile vs (1/4) ≤ quantile vs (3/4) := by
  have hn : 1 ≤ (sortVals vs).length := by
    rw [sortVals_length]
    exact List.length_pos.mpr hvs
  have hn1 : (0 : ℚ) ≤ (vs.length : ℚ) - 1 := by
    have : 1 ≤ vs.length := List.length_pos.mpr hvs
    have : (1 : ℚ) ≤ (vs.length : ℚ) := by exact_mod_cast this
    linarith
  unfold quantile
  apply interp_mono (sortVals_sorted vs) hn
  · positivity
  · nlinarith
  · rw [sortVals_length]; nlinarith

lemma lowerBound_le_upperBound {vs : List ℚ} (hvs : vs ≠ []) :
    lowerBound vs ≤ upperBound vs := by
  have := quantile_le_quantile hvs
  unfold lowerBound upperBound
  linarith

/-- C4: for every numeric column processed by the outlier handler, every
value present after capping lies within `[Q1 - 1.5*IQR, Q3 + 1.5*IQR]`,
where `Q1`, `Q3` are computed on the column's values before capping. -/
theorem capColumn_within_bounds (xs : NumCol) (v : Option ℚ) (hv : v ∈ capColumn xs)
    (x : ℚ) (hx : v = some x) :
    lowerBound (xs.filterMap id) ≤ x ∧ x ≤ upperBound (xs.filterMap id) := by
  by_cases hvs : xs.filterMap id = []
  · -- every entry is missing, so `v = some x` is impossible
    have hall : ∀ a ∈ xs, id a = none := List.filterMap_eq_nil_iff.mp hvs
    have hcap : capColumn xs = xs := by
      unfold capColumn
      rw [hvs]
      simp
    rw [hcap] at hv
    have := hall v hv
    rw [hx] at this
    simp at this
  · have hlu : lowerBound (xs.filterMap id) ≤ upperBound (xs.filterMap id) :=
      lowerBound_le_upperBound hvs
    simp only [capColumn] at hv
    split at hv
    · -- clipping was applied: `x` is a clipped value
      rcases List.mem_map.mp hv with ⟨w, -, hw⟩
      rw [hx] at hw
      rcases w with - | y
      · simp at hw
      · simp only [Option.map_some', Option.some.injEq] at hw
        rw [← hw]
        unfold clip
        constructor
        · exact le_min (le_trans (le_max_right y _) (le_refl _)) hlu
        · exact min_le_right _ _
    · -- no present value was outside the fences to begin with
      rename_i hout
      have hcount : (xs.filterMap id).countP
          (fun x => decide (x < lowerBound (xs.filterMap id)) ||
            decide (upperBound (xs.filterMap id) < x)) = 0 := by omega
      have hmem : x ∈ xs.filterMap id := List.mem_filterMap.mpr ⟨v, hv, by rw [hx]; rfl⟩
      have hnot := List.countP_eq_zero.mp hcount x hmem
      simp only [Bool.or_eq_true, decide_eq_true_eq, not_or] at hnot
      exact ⟨le_of_not_lt hnot.1, le_of_not_lt hnot.2⟩

lemma exOutlier_vals : exOutlierCol.filterMap id = [1, 2, 3, 4, 100] := rfl

lemma exOutlier_sorted : sortVals [1, 2, 3, 4, 100] = [1, 2, 3, 4, 100] := by
  norm_num [sortVals, List.insertionSort, List.orderedInsert]

lemma exOutlier_q1 : quantile [1, 2, 3, 4, 100] (1/4) = 2 := by
  unfold quantile
  rw [exOutlier_sorted]
  norm_num [interp]

lemma exOutlier_q3 : quantile [1, 2, 3, 4, 100] (3/4) = 4 := by
  unfold quantile
  rw [exOutlier_sorted]
  norm_num [interp, show Int.toNat 3 = 3 from rfl]

lemma exOutlier_lower : lowerBound [1, 2, 3, 4, 100] = -1 := by
  unfold lowerBound
  rw [exOutlier_q1, exOutlier_q3]
  norm_num

lemma exOutlier_upper : upperBound [1, 2, 3, 4, 100] = 7 := by
  unfold upperBound
  rw [exOutlier_q1, exOutlier_q3]
  norm_num

lemma capColumn_exOutlier :
    capColumn exOutlierCol = [some 1, some 2, some 3, some 4, some 7] := by
  simp only [capColumn]
  rw [exOutlier_vals, exOutlier_lower, exOutlier_upper]
  norm_num [List.countP, List.countP.go, clip, exOutlierCol]

/-- Witness for C4 at the concrete column `[1, 2, 3, 4, 100]`, whose value
`100` is capped to the upper fence `7`. -/
theorem capColumn_within_bounds_witness :
    some (7 : ℚ) ∈ capColumn exOutlierCol ∧
      lowerBound (exOutlierCol.filterMap id) ≤ 7 ∧
        7 ≤ upperBound (exOutlierCol.filterMap id) := by
  have hm : some (7 : ℚ) ∈ capColumn exOutlierCol := by
    rw [capColumn_exOutlier]
    simp
  exact ⟨hm, capColumn_within_bounds exOutlierCol (some 7) hm 7 rfl⟩

lemma exZero_vals : exZeroIQRCol.filterMap id = [0, 5, 5, 5, 10] := rfl

lemma exZero_sorted : sortVals [0, 5, 5, 5, 10] = [0, 5, 5, 5, 10] := by
  norm_num [sortVals, List.insertionSort, List.orderedInsert]

lemma exZero_q1 : quantile [0, 5, 5, 5, 10] (1/4) = 5 := by
  unfold quantile
  rw [exZero_sorted]
  norm_num [interp]

lemma exZero_q3 : quantile [0, 5, 5, 5, 10] (3/4) = 5 := by
  unfold quantile
  rw [exZero_sorted]
  norm_num [interp, show Int.toNat 3 = 3 from rfl]

lemma exZero_lower : lowerBound [0, 5, 5, 5, 10] = 5 := by
  unfold lowerBound
  rw [exZero_q1, exZero_q3]
  norm_num

lemma exZero_upper : upperBound [0, 5, 5, 5, 10] = 5 := by
  unfold upperBound
  rw [exZero_q1, exZero_q3]
  norm_num

lemma capColumn_exZero :
    capColumn exZeroIQRCol = [some 5, some 5, some 5, some 5, some 5] := by
  simp only [capColumn]
  rw [exZero_vals, exZero_lower, exZero_upper]
  norm_num [List.countP, List.countP.go, clip, exZeroIQRCol]

/-- C5 counterexample: the column `[0, 5, 5, 5, 10]` has zero interquartile
range (`Q1 = Q3 = 5`, degenerate equal fences), yet the outlier handler does
change it — it caps `0` and `10` to `5`. -/
theorem zero_iqr_changes_column_cex :
    quantile (exZeroIQRCol.filterMap id) (1/4) =
        quantile (exZeroIQRCol.filterMap id) (3/4) ∧
      capColumn exZeroIQRCol ≠ exZeroIQRCol := by
  constructor
  · rw [exZero_vals, exZero_q1, exZero_q3]
  · rw [capColumn_exZero]
    simp [exZeroIQRCol]

lemma quantile_constant {vs : List ℚ} (c : ℚ) (hne : vs ≠ [])
    (hall : ∀ x ∈ vs, x = c) {q : ℚ} (h1 : q ≤ 1) :
    quantile vs q = c := by
  have hmem : ∀ x ∈ sortVals vs, x = c := fun x hx => hall x (sortVals_mem.mp hx)
  have hn : 1 ≤ (sortVals vs).length := by
    rw [sortVals_length]; exact List.length_pos.mpr hne
  have hn1 : (0 : ℚ) ≤ (vs.length : ℚ) - 1 := by
    have : 1 ≤ vs.length := List.length_pos.mpr hne
    have : (1 : ℚ) ≤ (vs.length : ℚ) := by exact_mod_cast this
    linarith
  have hrange : q * ((vs.length : ℚ) - 1) ≤ ((sortVals vs).length : ℚ) - 1 := by
    rw [sortVals_length]; nlinarith
  have hin : (⌊q * ((vs.length : ℚ) - 1)⌋).toNat < (sortVals vs).length :=
    floor_idx_lt hn hrange
  have hlo : (sortVals vs).getD ((⌊q * ((vs.length : ℚ) - 1)⌋).toNat) 0 = c := by
    rw [List.getD_eq_getElem _ 0 hin]
    exact hmem _ (List.getElem_mem hin)
  have hhi : (sortVals vs).getD ((⌊q * ((vs.length : ℚ) - 1)⌋).toNat + 1)
      ((sortVals vs).getD ((⌊q * ((vs.length : ℚ) - 1)⌋).toNat) 0) = c := by
    rcases lt_or_ge ((⌊q * ((vs.length : ℚ) - 1)⌋).toNat + 1) (sortVals vs).length with hlt | hge
    · rw [List.getD_eq_getElem _ _ hlt]
      exact hmem _ (List.getElem_mem hlt)
    · rw [List.getD_eq_default _ _ hge, hlo]
  unfold quantile
  rw [interp_eq, hhi, hlo]
  ring

/-- C5 amended: a numeric column of zero variance (all present values
equal, all entries present) is left unchanged by the outlier handler. -/
theorem capColumn_constant_unchanged (xs : NumCol) (c : ℚ)
    (hall : ∀ v ∈ xs, v = some c) : capColumn xs = xs := by
  by_cases hx : xs = []
  · subst hx; rfl
  · have hallv : ∀ x ∈ xs.filterMap id, x = c := by
      intro x hxm
      rcases List.mem_filterMap.mp hxm with ⟨v, hv, hvx⟩
      have := hall v hv
      rw [this] at hvx
      exact (Option.some_injective _ hvx).symm
    have hne : xs.filterMap id ≠ [] := by
      rcases List.exists_mem_of_ne_nil xs hx with ⟨v, hv⟩
      have hvc := hall v hv
      have : c ∈ xs.filterMap id := List.mem_filterMap.mpr ⟨v, hv, by rw [hvc]; rfl⟩
      exact List.ne_nil_of_mem this
    have hq1 : quantile (xs.filterMap id) (1/4) = c :=
      quantile_constant c hne hallv (by norm_num)
    have hq3 : quantile (xs.filterMap id) (3/4) = c :=
      quantile_constant c hne hallv (by norm_num)
    have hlow : lowerBound (xs.filterMap id) = c := by
      unfold lowerBound; rw [hq1, hq3]; ring
    have hup : upperBound (xs.filterMap id) = c := by
      unfold upperBound; rw [hq1, hq3]; ring
    have hcount : (xs.filterMap id).countP
        (fun x => decide (x < lowerBound (xs.filterMap id)) ||
          decide (upperBound (xs.filterMap id) < x)) = 0 := by
      apply List.countP_eq_zero.mpr
      intro a ha
      rw [hlow, hup, hallv a ha]
      simp
    simp only [capColumn]
    rw [hcount]
    simp

/-- Witness for the amended C5 at the constant column `[2, 2]`. -/
theorem capColumn_constant_unchanged_witness :
    (∀ v ∈ [some (2 : ℚ), some 2], v = some 2) ∧
      capColumn [some (2 : ℚ), some 2] = [some 2, some 2] :=
  ⟨by simp, capColumn_constant_unchanged _ 2 (by simp)⟩

/-! Helper lemmas: column lookup through the column-wise stages. -/

lemma find?_map_name {β γ : Type} (l : List (String × β)) (f : β → γ) (n : String) :
    ((l.map (fun c => (c.1, f c.2))).find? (fun c => c.1 = n)) =
      (l.find? (fun c => c.1 = n)).map (fun c => (c.1, f c.2)) := by
  induction l with
  | nil => rfl
  | cons a l ih =>
    by_cases h : a.1 = n
    · simp [List.find?_cons, h]
    · simp only [List.map_cons, List.find?_cons]
      have hd : (decide (a.1 = n)) = false := by simp [h]
      simp [hd, ih]

lemma capColumn_nil : capColumn [] = [] := rfl

lemma fillNumericColumn_nil : fillNumericColumn [] = [] := rfl

lemma fillCategoricalColumn_nil : fillCategoricalColumn [] = [] := rfl

lemma getNum_mapped {f : NumCol → NumCol} (hf : f [] = []) (l : List (String × NumCol))
    (cats : List (String × CatCol)) (n : String) :
    getNum ⟨l.map (fun c => (c.1, f c.2)), cats⟩ n = f (getNum ⟨l, cats⟩ n) := by
  unfold getNum
  simp only []
  rw [find?_map_name]
  cases h : l.find? (fun c => c.1 = n) with
  | none => simp [h, hf]
  | some c => simp [h]

lemma getNum_handle_outliers (d : Dataset) (n : String) :
    getNum (handle_outliers d) n = capColumn (getNum d n) := by
  have := getNum_mapped (f := capColumn) capColumn_nil d.numCols d.catCols n
  simpa [handle_outliers] using this

lemma getNum_handle_missing (d : Dataset) (n : String) :
    getNum (handle_missing_values d) n = fillNumericColumn (getNum d n) := by
  have := getNum_mapped (f := fillNumericColumn) fillNumericColumn_nil d.numCols
    (d.catCols.map (fun c => (c.1, fillCategoricalColumn c.2))) n
  have h2 : getNum ⟨d.numCols, d.catCols.map (fun c => (c.1, fillCategoricalColumn c.2))⟩ n
      = getNum d n := rfl
  rw [h2] at this
  simpa [handle_missing_values] using this

/-- C3 counterexample: the outlier handler does change the target column
`Crop_Yield_MT_per_HA` — on `exTargetOutlier` it caps the target value `100`
to `7`. -/
theorem outliers_change_target_cex :
    getNum (handle_outliers exTargetOutlier) "Crop_Yield_MT_per_HA" ≠
      getNum exTargetOutlier "Crop_Yield_MT_per_HA" := by
  have h1 : getNum (handle_outliers exTargetOutlier) "Crop_Yield_MT_per_HA" =
      capColumn exOutlierCol := by
    rw [getNum_handle_outliers]
    simp [getNum, exTargetOutlier]
  have h2 : getNum exTargetOutlier "Crop_Yield_MT_per_HA" = exOutlierCol := by
    simp [getNum, exTargetOutlier]
  rw [h1, h2, capColumn_exOutlier]
  norm_num [exOutlierCol]

/-- C3 amended: the outlier handler touches exactly the numeric columns
(the dataset has no identifier column and the numeric target is capped like
any other numeric column): categorical columns are unchanged, and every
numeric column — the target included — is replaced by its capped version. -/
theorem handle_outliers_frame (d : Dataset) :
    (handle_outliers d).catCols = d.catCols ∧
      ∀ n, getNum (handle_outliers d) n = capColumn (getNum d n) :=
  ⟨rfl, fun n => getNum_handle_outliers d n⟩

/-! Helper lemmas: the missing-value stage. -/

lemma fillNumericColumn_length (xs : NumCol) :
    (fillNumericColumn xs).length = xs.length := by
  unfold fillNumericColumn
  split
  · split <;> simp
  · rfl

lemma fillCategoricalColumn_length (xs : CatCol) :
    (fillCategoricalColumn xs).length = xs.length := by
  unfold fillCategoricalColumn
  split
  · split <;> simp
  · rfl

lemma fillNumericColumn_idem (xs : NumCol) :
    fillNumericColumn (fillNumericColumn xs) = fillNumericColumn xs := by
  by_cases h : xs.any (fun v => v.isNone) = true
  · cases hm : median xs with
    | none =>
      have hx : fillNumericColumn xs = xs := by simp [fillNumericColumn, h, hm]
      rw [hx]
      exact hx
    | some m =>
      have hx : fillNumericColumn xs = xs.map (fun v => some (v.getD m)) := by
        simp [fillNumericColumn, h, hm]
      rw [hx]
      have hnone : (xs.map (fun v => some (v.getD m))).any (fun v => v.isNone) = false := by
        simp [List.any_map, Function.comp]
      simp [fillNumericColumn, hnone]
  · have hx : fillNumericColumn xs = xs := by simp [fillNumericColumn, h]
    rw [hx]
    exact hx

lemma fillCategoricalColumn_idem (xs : CatCol) :
    fillCategoricalColumn (fillCategoricalColumn xs) = fillCategoricalColumn xs := by
  by_cases h : xs.any (fun v => v.isNone) = true
  · cases hm : mode xs with
    | none =>
      have hx : fillCategoricalColumn xs = xs := by simp [fillCategoricalColumn, h, hm]
      rw [hx]
      exact hx
    | some m =>
      have hx : fillCategoricalColumn xs = xs.map (fun v => some (v.getD m)) := by
        simp [fillCategoricalColumn, h, hm]
      rw [hx]
      have hnone : (xs.map (fun v => some (v.getD m))).any (fun v => v.isNone) = false := by
        simp [List.any_map, Function.comp]
      simp [fillCategoricalColumn, hnone]
  · have hx : fillCategoricalColumn xs = xs := by simp [fillCategoricalColumn, h]
    rw [hx]
    exact hx

lemma handle_missing_values_idem (d : Dataset) :
    handle_missing_values (handle_missing_values d) = handle_missing_values d := by
  unfold handle_missing_values
  simp only [List.map_map]
  congr 1
  · apply List.map_congr_left
    intro a _
    simp [Function.comp, fillNumericColumn_idem]
  · apply List.map_congr_left
    intro a _
    simp [Function.comp, fillCategoricalColumn_idem]

lemma numRows_handle_missing (d : Dataset) :
    numRows (handle_missing_values d) = numRows d := by
  unfold numRows handle_missing_values
  simp [List.map_map, Function.comp_def, fillNumericColumn_length, fillCategoricalColumn_length]

/-- C2 counterexample: on the three-row dataset `exDup`, whose first two
rows are equal, the cleaning stage (`handle_missing_values`, the only
cleaning the pipeline has) removes nothing: the duplicate row survives, the
row count stays 3 instead of the 2 distinct rows the claim's duplicate
removal would leave. -/
theorem cleaning_keeps_duplicates_cex :
    distinctRowCount exDup = 2 ∧ numRows (handle_missing_values exDup) = 3 ∧
      numRows (handle_missing_values exDup) ≠ distinctRowCount exDup := by
  refine ⟨?_, ?_, ?_⟩ <;> decide

/-- C2 amended: the cleaning stage removes no rows at all (duplicates are
kept; its row count equals the input row count), and it is idempotent —
applying it twice gives the very same dataset, hence the same row count, as
applying it once. -/
theorem cleaning_rowcount_and_idempotent (d : Dataset) :
    numRows (handle_missing_values d) = numRows d ∧
      handle_missing_values (handle_missing_values d) = handle_missing_values d :=
  ⟨numRows_handle_missing d, handle_missing_values_idem d⟩

/-! Helper lemmas: definedness of median and mode on nonempty data. -/

lemma sortStrs_perm (vs : List String) : (sortStrs vs).Perm vs :=
  List.perm_insertionSort _ vs

lemma sortStrs_mem {vs : List String} {a : String} : a ∈ sortStrs vs ↔ a ∈ vs :=
  (sortStrs_perm vs).mem_iff

lemma foldr_max_mem (l : List ℕ) (h : l ≠ []) : l.foldr max 0 ∈ l := by
  induction l with
  | nil => contradiction
  | cons x t ih =>
    cases t with
    | nil => simp
    | cons y t' =>
      have hmem := ih (by simp)
      rcases max_choice x ((y :: t').foldr max 0) with hc | hc
      · simp only [List.foldr_cons] at hc ⊢
        rw [hc]
        exact List.mem_cons_self _ _
      · simp only [List.foldr_cons] at hc ⊢
        rw [hc]
        exact List.mem_cons_of_mem _ hmem

lemma median_isSome {xs : NumCol} (h : xs.filterMap id ≠ []) : (median xs).isSome := by
  have hlen : (sortVals (xs.filterMap id)).length ≠ 0 := by
    rw [sortVals_length]
    exact fun hc => h (List.length_eq_zero.mp hc)
  simp only [median]
  split_ifs with h0 h1
  · exact absurd h0 hlen
  · simp
  · simp

lemma mode_isSome {xs : CatCol} (h : xs.filterMap id ≠ []) : (mode xs).isSome := by
  have hdv : sortStrs (xs.filterMap id).dedup ≠ [] := by
    rcases List.exists_mem_of_ne_nil _ h with ⟨x, hx⟩
    exact List.ne_nil_of_mem (sortStrs_mem.mpr (List.mem_dedup.mpr hx))
  simp only [mode]
  set dv := sortStrs (xs.filterMap id).dedup with hdvdef
  set vs := xs.filterMap id with hvsdef
  set mc := (dv.map (countVal vs)).foldr max 0 with hmc
  have hmem : mc ∈ dv.map (countVal vs) :=
    foldr_max_mem _ (by simpa using hdv)
  rcases List.mem_map.mp hmem with ⟨v, hv, hveq⟩
  have hfil : v ∈ dv.filter (fun v => countVal vs v = mc) :=
    List.mem_filter.mpr ⟨hv, by simp [hveq]⟩
  have hne := List.ne_nil_of_mem hfil
  cases hc : dv.filter (fun v => countVal vs v = mc) with
  | nil => exact absurd hc hne
  | cons a t => simp [hc]

lemma fillNumericColumn_clean {xs : NumCol}
    (h : xs.any (fun v => v.isNone) = true → xs.filterMap id ≠ []) :
    (fillNumericColumn xs).any (fun v => v.isNone) = false := by
  by_cases ha : xs.any (fun v => v.isNone) = true
  · rcases Option.isSome_iff_exists.mp (median_isSome (h ha)) with ⟨m, hmeq⟩
    simp [fillNumericColumn, ha, hmeq, List.any_map, Function.comp_def]
  · have hb : xs.any (fun v => v.isNone) = false := eq_false_of_ne_true ha
    simp only [fillNumericColumn, hb]
    simpa using hb

lemma fillCategoricalColumn_clean {xs : CatCol}
    (h : xs.any (fun v => v.isNone) = true → xs.filterMap id ≠ []) :
    (fillCategoricalColumn xs).any (fun v => v.isNone) = false := by
  by_cases ha : xs.any (fun v => v.isNone) = true
  · rcases Option.isSome_iff_exists.mp (mode_isSome (h ha)) with ⟨m, hmeq⟩
    simp [fillCategoricalColumn, ha, hmeq, List.any_map, Function.comp_def]
  · have hb : xs.any (fun v => v.isNone) = false := eq_false_of_ne_true ha
    simp only [fillCategoricalColumn, hb]
    simpa using hb

/-- C8 counterexample: on a dataset with an all-missing numeric column the
missing-value stage leaves the missing value in place (the median of an
all-NaN column is NaN, and `fillna(NaN)` fills nothing), so the dataset
still has missing values after the stage. -/
theorem missing_all_nan_cex :
    hasMissing (handle_missing_values exAllMissing) = true := by decide

/-- C8 amended: provided every column that has a missing entry also has at
least one present entry (so its median/mode is defined), the missing-value
stage leaves no missing value: numeric columns are filled with their median,
categorical columns with their mode. -/
theorem handle_missing_no_missing (d : Dataset)
    (hnum : ∀ c ∈ d.numCols, c.2.any (fun v => v.isNone) = true → c.2.filterMap id ≠ [])
    (hcat : ∀ c ∈ d.catCols, c.2.any (fun v => v.isNone) = true → c.2.filterMap id ≠ []) :
    hasMissing (handle_missing_values d) = false := by
  simp only [hasMissing, handle_missing_values, List.any_map, Function.comp_def,
    Bool.or_eq_false_iff]
  constructor
  · rw [List.any_eq_false]
    intro c hc
    simp [fillNumericColumn_clean (hnum c hc)]
  · rw [List.any_eq_false]
    intro c hc
    simp [fillCategoricalColumn_clean (hcat c hc)]

/-- Witness for the amended C8 at `exFillable`, where every column with a
missing entry also has present entries. -/
theorem handle_missing_no_missing_witness :
    (∀ c ∈ exFillable.numCols, c.2.any (fun v => v.isNone) = true → c.2.filterMap id ≠ []) ∧
      (∀ c ∈ exFillable.catCols, c.2.any (fun v => v.isNone) = true → c.2.filterMap id ≠ []) ∧
        hasMissing (handle_missing_values exFillable) = false :=
  ⟨by decide, by decide, handle_missing_no_missing exFillable (by decide) (by decide)⟩

/-- C10: the `Resource_Efficiency` derived column divides the crop yield by
`fertilizer + pesticide + 1`; with non-negative fertilizer and pesticide use
the denominator is at least 1, hence non-zero, and the division recovers the
yield on multiplication — it never divides by zero. -/
theorem resource_efficiency_denominator_safe (y fert pest : ℚ)
    (hf : 0 ≤ fert) (hp : 0 ≤ pest) :
    1 ≤ resourceDenominator fert pest ∧ resourceDenominator fert pest ≠ 0 ∧
      resource_Efficiency y fert pest * resourceDenominator fert pest = y := by
  have h1 : 1 ≤ resourceDenominator fert pest := by
    unfold resourceDenominator; linarith
  have h2 : resourceDenominator fert pest ≠ 0 := by
    intro hc; rw [hc] at h1; norm_num at h1
  refine ⟨h1, h2, ?_⟩
  unfold resource_Efficiency
  exact div_mul_cancel₀ y h2

/-- Witness for C10 at yield 10, fertilizer 2, pesticide 3. -/
theorem resource_efficiency_denominator_safe_witness :
    (0 : ℚ) ≤ 2 ∧ (0 : ℚ) ≤ 3 ∧
      (1 ≤ resourceDenominator 2 3 ∧ resourceDenominator 2 3 ≠ 0 ∧
        resource_Efficiency 10 2 3 * resourceDenominator 2 3 = 10) :=
  ⟨by norm_num, by norm_num,
    resource_efficiency_denominator_safe 10 2 3 (by norm_num) (by norm_num)⟩

/-! Helper lemmas: the standard scaler. -/

lemma list_sum_map_div (xs : List ℝ) (f : ℝ → ℝ) (c : ℝ) :
    (xs.map (fun x => f x / c)).sum = (xs.map f).sum / c := by
  induction xs with
  | nil => simp
  | cons a t ih => simp [ih, add_div]

lemma list_sum_map_sub (xs : List ℝ) (c : ℝ) :
    (xs.map (fun x => x - c)).sum = xs.sum - xs.length * c := by
  induction xs with
  | nil => simp
  | cons a t ih =>
    simp only [List.map_cons, List.sum_cons, ih, List.length_cons]
    push_cast
    ring

lemma varR_nonneg (xs : RCol) : 0 ≤ varR xs := by
  unfold varR meanR
  apply div_nonneg
  · apply List.sum_nonneg
    intro x hx
    rcases List.mem_map.mp hx with ⟨y, -, hy⟩
    rw [← hy]
    positivity
  · positivity

lemma stdScale_ne_zero (xs : RCol) : stdScale xs ≠ 0 := by
  unfold stdScale
  split_ifs with h
  · norm_num
  · exact h

lemma scaleColumn_mean_var {xs : RCol} (hvar : varR xs ≠ 0) :
    meanR (scaleColumn xs) = 0 ∧ varR (scaleColumn xs) = 1 := by
  have hne : xs ≠ [] := by
    intro h
    rw [h] at hvar
    simp [varR, meanR] at hvar
  have hn : (xs.length : ℝ) ≠ 0 :=
    Nat.cast_ne_zero.mpr (fun hc => hne (List.length_eq_zero.mp hc))
  have hv0 : 0 ≤ varR xs := varR_nonneg xs
  have hs0 : stdScale xs ≠ 0 := stdScale_ne_zero xs
  have hstd2 : stdScale xs ^ 2 = varR xs := by
    unfold stdScale
    split_ifs with h
    · exact absurd ((Real.sqrt_eq_zero hv0).mp h) hvar
    · exact Real.sq_sqrt hv0
  have hsub : xs.sum - xs.length * meanR xs = 0 := by
    unfold meanR
    field_simp
  have hsum : (scaleColumn xs).sum = 0 := by
    unfold scaleColumn
    rw [list_sum_map_div xs (fun x => x - meanR xs), list_sum_map_sub, hsub]
    simp
  have hlen : (scaleColumn xs).length = xs.length := by simp [scaleColumn]
  have hmean : meanR (scaleColumn xs) = 0 := by
    unfold meanR
    rw [hsum]
    simp
  refine ⟨hmean, ?_⟩
  have hA : (xs.map (fun x => (x - meanR xs) ^ 2)).sum = varR xs * xs.length := by
    have : varR xs = (xs.map (fun x => (x - meanR xs) ^ 2)).sum / xs.length := by
      unfold varR meanR
      rw [List.length_map]
    rw [this]
    field_simp
  have hmap : (scaleColumn xs).map (fun y => y ^ 2) =
      xs.map (fun x => (x - meanR xs) ^ 2 / stdScale xs ^ 2) := by
    unfold scaleColumn
    rw [List.map_map]
    apply List.map_congr_left
    intro a _
    simp [Function.comp, div_pow]
  have hmeanEq : ∀ l : RCol, meanR l = l.sum / l.length := fun l => rfl
  unfold varR
  rw [hmean]
  simp only [sub_zero]
  rw [hmap, hmeanEq, list_sum_map_div xs (fun x => (x - meanR xs) ^ 2) (stdScale xs ^ 2),
    hA, List.length_map, hstd2]
  field_simp

lemma scaleColumn_nil : scaleColumn [] = [] := by simp [scaleColumn]

lemma colR_scale_features_target (cols : RDataset) :
    colR (scale_features cols) target = colR cols target := by
  unfold colR scale_features
  induction cols with
  | nil => rfl
  | cons a t ih =>
    by_cases h : a.1 = target
    · simp [List.find?_cons, h]
    · have hd : (decide (a.1 = target)) = false := by simp [h]
      simp only [List.map_cons, List.find?_cons]
      rw [if_neg h]
      simp only [hd]
      simpa using ih

lemma colR_scale_features_feature (cols : RDataset) (n : String) (hn : n ≠ target) :
    colR (scale_features cols) n = scaleColumn (colR cols n) := by
  unfold colR scale_features
  induction cols with
  | nil => simp [scaleColumn_nil]
  | cons a t ih =>
    by_cases h : a.1 = n
    · have hnt : ¬ a.1 = target := by rw [h]; exact hn
      simp only [List.map_cons, List.find?_cons]
      rw [if_neg hnt]
      simp [h]
    · have hd : (decide (a.1 = n)) = false := by simp [h]
      by_cases ht : a.1 = target
      · simp only [List.map_cons, List.find?_cons]
        rw [if_pos ht]
        have hd2 : (decide (a.1 = n)) = false := hd
        simp only [hd2]
        simpa using ih
      · simp only [List.map_cons, List.find?_cons]
        rw [if_neg ht]
        simp only [hd]
        simpa using ih

/-- C6: the scaler fits per-column statistics over `df_processed` with the
target excluded and transforms by `x ↦ (x - mean)/std`; afterwards the
target column is unchanged, and every feature column with non-zero
pre-scaling variance has mean exactly 0 and variance (hence standard
deviation) exactly 1 in the exact-real model. -/
theorem scale_features_spec (cols : RDataset) (n : String) (hn : n ≠ target)
    (hvar : varR (colR cols n) ≠ 0) :
    colR (scale_features cols) target = colR cols target ∧
      colR (scale_features cols) n = scaleColumn (colR cols n) ∧
        meanR (colR (scale_features cols) n) = 0 ∧
          varR (colR (scale_features cols) n) = 1 ∧
            Real.sqrt (varR (colR (scale_features cols) n)) = 1 := by
  have hcol := colR_scale_features_feature cols n hn
  have hmv := scaleColumn_mean_var hvar
  refine ⟨colR_scale_features_target cols, hcol, ?_, ?_, ?_⟩
  · rw [hcol]; exact hmv.1
  · rw [hcol]; exact hmv.2
  · rw [hcol, hmv.2]; exact Real.sqrt_one

/-- Witness for C6 on `exScale`: the feature column `Year = [1, 3]` has
variance 1, the target column `[5, 6]` stays untouched. -/
theorem scale_features_spec_witness :
    ("Year" ≠ target) ∧ varR (colR exScale "Year") ≠ 0 ∧
      (colR (scale_features exScale) target = colR exScale target ∧
        colR (scale_features exScale) "Year" = scaleColumn (colR exScale "Year") ∧
          meanR (colR (scale_features exScale) "Year") = 0 ∧
            varR (colR (scale_features exScale) "Year") = 1 ∧
              Real.sqrt (varR (colR (scale_features exScale) "Year")) = 1) := by
  have h1 : ("Year" : String) ≠ target := by decide
  have hcol : colR exScale "Year" = [1, 3] := by
    simp [colR, exScale]
  have h2 : varR (colR exScale "Year") ≠ 0 := by
    rw [hcol]
    norm_num [varR, meanR]
  exact ⟨h1, h2, scale_features_spec exScale "Year" h1 h2⟩

/-! Helper lemmas: the label encoder. -/

lemma encodeValue_strictMono {xs : List String} {a b : String}
    (ha : a ∈ xs) (hab : a < b) : encodeValue xs a < encodeValue xs b := by
  unfold encodeValue
  have hsub : xs.dedup.filter (fun u => decide (u < a)) =
      (xs.dedup.filter (fun u => decide (u < b))).filter (fun u => decide (u < a)) := by
    rw [List.filter_filter]
    apply List.filter_congr
    intro x _
    by_cases hxa : x < a
    · simp [hxa, lt_trans hxa hab]
    · simp [hxa]
  have hle : (xs.dedup.filter (fun u => decide (u < a))).length ≤
      (xs.dedup.filter (fun u => decide (u < b))).length := by
    rw [hsub]
    exact (List.filter_sublist _).length_le
  rcases lt_or_eq_of_le hle with hlt | heq
  · exact hlt
  · exfalso
    have hEq : (xs.dedup.filter (fun u => decide (u < b))).filter (fun u => decide (u < a)) =
        xs.dedup.filter (fun u => decide (u < b)) := by
      apply (List.filter_sublist _).eq_of_length
      rw [← hsub]
      exact heq
    have hamem : a ∈ xs.dedup.filter (fun u => decide (u < b)) :=
      List.mem_filter.mpr ⟨List.mem_dedup.mpr ha, by simp [hab]⟩
    rw [← hEq] at hamem
    exact absurd (of_decide_eq_true (List.mem_filter.mp hamem).2) (lt_irrefl a)

lemma encodeValue_lt_card {xs : List String} {x : String} (hx : x ∈ xs) :
    encodeValue xs x < xs.dedup.length := by
  unfold encodeValue
  have hsl : (xs.dedup.filter (fun u => decide (u < x))).Sublist xs.dedup :=
    List.filter_sublist _
  rcases lt_or_eq_of_le hsl.length_le with hlt | heq
  · exact hlt
  · exfalso
    have hEq := hsl.eq_of_length heq
    have hxm : x ∈ xs.dedup.filter (fun u => decide (u < x)) := by
      rw [hEq]
      exact List.mem_dedup.mpr hx
    exact absurd (of_decide_eq_true (List.mem_filter.mp hxm).2) (lt_irrefl x)

lemma encodeValue_surjective (xs : List String) :
    ∀ k < xs.dedup.length, ∃ x ∈ xs, encodeValue xs x = k := by
  intro k hk
  have hcard : xs.dedup.toFinset.card = xs.dedup.length :=
    List.toFinset_card_of_nodup (List.nodup_dedup xs)
  have hsubT : xs.dedup.toFinset.image (encodeValue xs) ⊆ Finset.range xs.dedup.length := by
    intro m hm
    rcases Finset.mem_image.mp hm with ⟨x, hxS, hxm⟩
    rw [Finset.mem_range, ← hxm]
    exact encodeValue_lt_card (List.mem_dedup.mp (List.mem_toFinset.mp hxS))
  have hinj : Set.InjOn (encodeValue xs) xs.dedup.toFinset := by
    intro a haS b hbS hab
    by_contra hne
    rcases lt_or_gt_of_ne hne with hlt | hgt
    · exact absurd hab
        (ne_of_lt (encodeValue_strictMono (List.mem_dedup.mp (List.mem_toFinset.mp haS)) hlt))
    · exact absurd hab.symm
        (ne_of_lt (encodeValue_strictMono (List.mem_dedup.mp (List.mem_toFinset.mp hbS)) hgt))
  have hcardT : (xs.dedup.toFinset.image (encodeValue xs)).card = xs.dedup.length := by
    rw [Finset.card_image_of_injOn hinj, hcard]
  have hTeq : xs.dedup.toFinset.image (encodeValue xs) = Finset.range xs.dedup.length := by
    apply Finset.eq_of_subset_of_card_le hsubT
    exact le_of_eq (by rw [Finset.card_range, hcardT])
  have hkT : k ∈ xs.dedup.toFinset.image (encodeValue xs) := by
    rw [hTeq]
    exact Finset.mem_range.mpr hk
  rcases Finset.mem_image.mp hkT with ⟨x, hxS, hxval⟩
  exact ⟨x, List.mem_dedup.mp (List.mem_toFinset.mp hxS), hxval⟩

lemma find?_keyed {β : Type} {l : List (String × β)} {n : String} {v : β}
    (hnd : (l.map Prod.fst).Nodup) (hm : (n, v) ∈ l) :
    l.find? (fun c => c.1 = n) = some (n, v) := by
  induction l with
  | nil => cases hm
  | cons a t ih =>
    rcases List.mem_cons.mp hm with heq | hmem
    · rw [← heq]
      simp [List.find?_cons]
    · have hne : a.1 ≠ n := by
        intro hc
        have hmapmem : n ∈ t.map Prod.fst := List.mem_map.mpr ⟨(n, v), hmem, rfl⟩
        rw [← hc] at hmapmem
        exact (List.nodup_cons.mp (by simpa using hnd)).1 hmapmem
      have hd : (decide (a.1 = n)) = false := by simp [hne]
      rw [List.find?_cons]
      simp only [hd]
      exact ih (List.nodup_cons.mp (by simpa using hnd)).2 hmem

lemma encoded_names_nodup (d : Dataset) :
    (((categorical_cols.filter (fun c => hasCat d c)).map
      (fun c => (encodedName c, encodeColumn (colStr d c)))).map Prod.fst).Nodup := by
  rw [List.map_map]
  have hcomp : (Prod.fst ∘ (fun c => (encodedName c, encodeColumn (colStr d c)))) =
      encodedName := rfl
  rw [hcomp]
  exact List.Nodup.sublist (List.Sublist.map encodedName (List.filter_sublist _)) (by decide)

lemma getNum_encode_categorical (d : Dataset) (c : String)
    (hc : c ∈ categorical_cols) (hpres : hasCat d c = true)
    (hfresh : encodedName c ∉ d.numCols.map Prod.fst) :
    getNum (encode_categorical d) (encodedName c) = encodeColumn (colStr d c) := by
  unfold getNum encode_categorical
  simp only []
  rw [List.find?_append]
  have hnone : d.numCols.find? (fun p => p.1 = encodedName c) = none := by
    rw [List.find?_eq_none]
    intro x hx
    simp only [decide_eq_true_eq]
    intro hcx
    exact hfresh (List.mem_map.mpr ⟨x, hx, hcx⟩)
  rw [hnone, Option.none_or]
  have hmem : (encodedName c, encodeColumn (colStr d c)) ∈
      (categorical_cols.filter (fun c => hasCat d c)).map
        (fun c => (encodedName c, encodeColumn (colStr d c))) :=
    List.mem_map.mpr ⟨c, List.mem_filter.mpr ⟨hc, by simp [hpres]⟩, rfl⟩
  rw [find?_keyed (encoded_names_nodup d) hmem]
  rfl

/-- C7: for every configured categorical column present in the dataframe
(and not shadowed by an existing numeric column of the same encoded name),
the encoder appends a parallel integer-coded column `{col}_Encoded` holding
each row's rank among the sorted distinct observed string forms:
lexicographically smaller labels receive strictly smaller codes, every code
is below the number `n` of distinct values, and every code in `0..n-1`
occurs. -/
theorem encode_categorical_spec (d : Dataset) (c : String)
    (hc : c ∈ categorical_cols) (hpres : hasCat d c = true)
    (hfresh : encodedName c ∉ d.numCols.map Prod.fst) :
    getNum (encode_categorical d) (encodedName c) = encodeColumn (colStr d c) ∧
      (encodeColumn (colStr d c)).length = (getCat d c).length ∧
        (∀ a ∈ colStr d c, ∀ b ∈ colStr d c, a < b →
          encodeValue (colStr d c) a < encodeValue (colStr d c) b) ∧
          (∀ x ∈ colStr d c, encodeValue (colStr d c) x < (colStr d c).dedup.length) ∧
            (∀ k < (colStr d c).dedup.length, ∃ x ∈ colStr d c,
              encodeValue (colStr d c) x = k) := by
  refine ⟨getNum_encode_categorical d c hc hpres hfresh, ?_, ?_, ?_, ?_⟩
  · simp [encodeColumn, colStr]
  · intro a ha b _ hab
    exact encodeValue_strictMono ha hab
  · intro x hx
    exact encodeValue_lt_card hx
  · exact encodeValue_surjective _

/-- Witness for C7 on `exEncode`, whose `Country` column `[B, A, B]` is
encoded to codes `[1, 0, 1]`. -/
theorem encode_categorical_spec_witness :
    ("Country" ∈ categorical_cols) ∧ hasCat exEncode "Country" = true ∧
      encodedName "Country" ∉ exEncode.numCols.map Prod.fst ∧
        (getNum (encode_categorical exEncode) (encodedName "Country") =
            encodeColumn (colStr exEncode "Country") ∧
          (encodeColumn (colStr exEncode "Country")).length =
              (getCat exEncode "Country").length ∧
            (∀ a ∈ colStr exEncode "Country", ∀ b ∈ colStr exEncode "Country", a < b →
              encodeValue (colStr exEncode "Country") a <
                encodeValue (colStr exEncode "Country") b) ∧
              (∀ x ∈ colStr exEncode "Country",
                encodeValue (colStr exEncode "Country") x <
                  (colStr exEncode "Country").dedup.length) ∧
                (∀ k < (colStr exEncode "Country").dedup.length,
                  ∃ x ∈ colStr exEncode "Country",
                    encodeValue (colStr exEncode "Country") x = k)) := by
  have h1 : ("Country" : String) ∈ categorical_cols := by decide
  have h2 : hasCat exEncode "Country" = true := by decide
  have h3 : encodedName "Country" ∉ exEncode.numCols.map Prod.fst := by decide
  exact ⟨h1, h2, h3, encode_categorical_spec exEncode "Country" h1 h2 h3⟩

/-! Helper lemmas: target-column tracking through the whole pipeline. -/

lemma capColumn_length (xs : NumCol) : (capColumn xs).length = xs.length := by
  simp only [capColumn]
  split <;> simp

lemma getNum_feature_engineering_target (d : Dataset) :
    getNum (feature_engineering d) target = getNum d target := by
  unfold getNum feature_engineering
  simp only []
  rw [List.find?_append]
  cases h : d.numCols.find? (fun c => c.1 = target) with
  | some c => simp [h]
  | none =>
    simp [h, target]

lemma getNum_encode_other (d : Dataset) (n : String)
    (hn : ∀ s ∈ categorical_cols, encodedName s ≠ n) :
    getNum (encode_categorical d) n = getNum d n := by
  unfold getNum encode_categorical
  simp only []
  rw [List.find?_append]
  cases h : d.numCols.find? (fun c => c.1 = n) with
  | some c => simp [h]
  | none =>
    simp only [h, Option.none_or]
    have hfind : categorical_cols.find?
        (fun a => hasCat d a && decide (encodedName a = n)) = none := by
      rw [List.find?_eq_none]
      intro x hx
      simp only [Bool.and_eq_true, decide_eq_true_eq, not_and]
      intro _
      exact hn x hx
    simp [hfind]

lemma getNum_select_target (d : Dataset) :
    getNum (select_features d) target = getNum d target := by
  unfold getNum select_features
  simp only []
  have hmem : (target, getNum d target) ∈ selected_features.map (fun n => (n, getNum d n)) :=
    List.mem_map.mpr ⟨target, by decide, rfl⟩
  have hnd : ((selected_features.map (fun n => (n, getNum d n))).map Prod.fst).Nodup := by
    rw [List.map_map]
    have hcomp : (Prod.fst ∘ fun n => (n, getNum d n)) = id := rfl
    rw [hcomp, List.map_id]
    decide
  rw [find?_keyed hnd hmem]
  rfl

lemma colR_toRCols (d : Dataset) (n : String) :
    colR (toRCols d) n = (getNum d n).map toRval := by
  unfold colR toRCols getNum
  rw [find?_map_name]
  cases h : d.numCols.find? (fun c => c.1 = n) with
  | none => simp [h]
  | some c => simp [h]

/-- C1 (code bug evidence): the pipeline of `main` produces one single
table; no rows are set aside for a test partition — the target column of the
written output has exactly as many rows as the input's target column, for
every input dataset. -/
theorem pipeline_no_split_row_count (d : Dataset) :
    (colR (run_pipeline d) target).length = (getNum d target).length := by
  unfold run_pipeline
  rw [colR_scale_features_target, colR_toRCols, getNum_select_target,
    getNum_encode_other _ _ (by decide), getNum_feature_engineering_target,
    getNum_handle_outliers, getNum_handle_missing]
  rw [List.length_map, capColumn_length, fillNumericColumn_length]

/-- C9: the pipeline is a pure function of its input — for any writer, two
runs on the same input dataset produce byte-for-byte identical output (the
source uses no randomness at all: `train_test_split`, the only randomized
import, is never called). -/
theorem pipeline_deterministic (w : RDataset → String) (d : Dataset) (o₁ o₂ : String)
    (h₁ : o₁ = w (run_pipeline d)) (h₂ : o₂ = w (run_pipeline d)) : o₁ = o₂ := by
  rw [h₁, h₂]

/-- Witness for C9: two runs over `exDup` with a concrete writer. -/
theorem pipeline_deterministic_witness :
    ("out" = (fun _ : RDataset => "out") (run_pipeline exDup)) ∧
      ("out" = (fun _ : RDataset => "out") (run_pipeline exDup)) ∧
        ("out" : String) = "out" :=
  ⟨rfl, rfl, pipeline_deterministic (fun _ => "out") exDup "out" "out" rfl rfl⟩

end ClimateAgri

